import Mathlib

/-!
# Verification of the `wasm-image-pipeline` tile execution engine

Shallow embedding of the Go sources of `wasm-image-pipeline` and proofs about
it.  The embedded code:

* the tile splitter, collector and stitcher of `processImage`
  (zero-copy driver) and of `apps/cli/main.go` (`main`, steps 3-5) — both use
  the same grid arithmetic `cols = (Dx+T-1)/T`, `rows = (Dy+T-1)/T`, crop
  rectangle `(x*T, y*T) - (min(x*T+T, Dx), min(y*T+T, Dy))`, coordinate-keyed
  collection `tiles[res.y][res.x] = res.img` and row-major pasting at
  `(x*T, y*T)`;
* the zero-copy host/guest invocation `runTile` (alloc, write, alloc params,
  filter entry point, descriptor decode with Go `int32` arithmetic, copy out,
  three deallocs);
* the streamed-pipe variant `runWasmFilter` of `apps/cli/main.go`.

The guest module itself (`filter.wasm`) is an external artifact; its model
follows the guest ABI of the design document (`alloc` / `dealloc` / filter
entry point writing an 8-byte little-endian output descriptor).

Pixels are abstracted to `Nat` values; PNG encode/decode is assumed lossless
and deterministic (the codec is an external collaborator), so byte-for-byte
equality of encoded images is represented by pixel-wise equality on the
image bounds.
-/

namespace WasmPipeline

/-- An in-memory image: width, height and a pixel function.  `px i j` is the
pixel at column `i`, row `j`; only indices inside the bounds are meaningful. -/
structure Image where
  width : Nat
  height : Nat
  px : Nat → Nat → Nat

/-- `cols := (b.Dx() + tileSize - 1) / tileSize` (`processImage`; identical in
`apps/cli/main.go`). -/
def tileCols (W T : Nat) : Nat := (W + T - 1) / T

/-- `rows := (b.Dy() + tileSize - 1) / tileSize`. -/
def tileRows (H T : Nat) : Nat := (H + T - 1) / T

/-- A pixel rectangle `(x0,y0)-(x1,y1)`, zero-origin, half-open. -/
structure Rect where
  x0 : Nat
  y0 : Nat
  x1 : Nat
  y1 : Nat
deriving DecidableEq

/-- The crop rectangle for grid column `c`, row `r`:
`x0, y0 := x*tileSize, y*tileSize; x1 := min(x0+tileSize, Dx);
y1 := min(y0+tileSize, Dy)` (`apps/cli/main.go` step 3; `processImage`
builds the same rectangle via `Rect(...).Intersect(b)` on zero-origin
bounds). -/
def tileRect (W H T c r : Nat) : Rect :=
  ⟨c * T, r * T, min (c * T + T) W, min (r * T + T) H⟩

/-- Membership of the pixel `(i, j)` in a rectangle. -/
def Rect.holds (rc : Rect) (i j : Nat) : Prop :=
  rc.x0 ≤ i ∧ i < rc.x1 ∧ rc.y0 ≤ j ∧ j < rc.y1

instance (rc : Rect) (i j : Nat) : Decidable (rc.holds i j) := by
  unfold Rect.holds
  infer_instance

/-- `imaging.Crop(src, rect)`: copy the sub-rectangle into a new zero-origin
image. -/
def crop (img : Image) (rc : Rect) : Image :=
  ⟨rc.x1 - rc.x0, rc.y1 - rc.y0, fun i j => img.px (rc.x0 + i) (rc.y0 + j)⟩

/-- `imaging.New(w, h, color.NRGBA{0, 0, 0, 0})`: a blank image (pixel value
`0` stands for the transparent color). -/
def blank (W H : Nat) : Image := ⟨W, H, fun _ _ => 0⟩

/-- `imaging.Paste(dst, t, image.Pt(ox, oy))`: paste `t` over `dst` at offset
`(ox, oy)`, clipped to the bounds of `dst`. -/
def paste (dst t : Image) (ox oy : Nat) : Image :=
  ⟨dst.width, dst.height, fun i j =>
    if i < dst.width ∧ j < dst.height ∧
        ox ≤ i ∧ i < ox + t.width ∧ oy ≤ j ∧ j < oy + t.height
    then t.px (i - ox) (j - oy)
    else dst.px i j⟩

/-- The row-major grid traversal `for y := 0; y < rows; y++ { for x := 0;
x < cols; x++ { ... } }`, producing the coordinates `(x, y)` in loop order. -/
def gridCoords (rows cols : Nat) : List (Nat × Nat) :=
  (List.range rows).flatMap fun r => (List.range cols).map fun c => (c, r)

/-- TileSplitter: the split loop of `processImage` / `apps/cli/main.go`,
one cropped tile per grid coordinate, in row-major order. -/
def splitTiles (img : Image) (T : Nat) : List ((Nat × Nat) × Image) :=
  (gridCoords (tileRows img.height T) (tileCols img.width T)).map
    fun p => (p, crop img (tileRect img.width img.height T p.1 p.2))

/-- The collector writes `tiles[res.y][res.x] = res.img` for each arriving
result (arrival order arbitrary; a later write to the same cell would win). -/
def collectGrid (results : List ((Nat × Nat) × Image)) : Nat × Nat → Option Image :=
  results.foldl (fun g res p => if p = res.1 then some res.2 else g p) fun _ => none

/-- One pasting step of the stitch loop: paste the grid entry of `p` at
`(p.1 * T, p.2 * T)`; in the source a grid entry is never missing (the
collector stores exactly one result per coordinate), a `none` entry is
skipped here. -/
def pasteStep (T : Nat) (g : Nat × Nat → Option Image) (acc : Image)
    (p : Nat × Nat) : Image :=
  match g p with
  | some t => paste acc t (p.1 * T) (p.2 * T)
  | none => acc

/-- The stitch loop over a coordinate list. -/
def pasteTiles (T : Nat) (g : Nat × Nat → Option Image) (acc : Image)
    (cs : List (Nat × Nat)) : Image :=
  cs.foldl (pasteStep T g) acc

/-- Stitcher: `final := imaging.New(Dx, Dy, transparent)` then row-major
pasting of `tiles[y][x]` at `(x*T, y*T)`. -/
def stitchGrid (W H T : Nat) (g : Nat × Nat → Option Image) : Image :=
  pasteTiles T g (blank W H) (gridCoords (tileRows H T) (tileCols W T))

/-- The dispatcher applies the filter to every split tile; these are the
results in dispatch (row-major) order.  An actual run delivers them to the
collector in some arrival permutation of this list. -/
def canonicalResults (img : Image) (T : Nat) (filter : Image → Image) :
    List ((Nat × Nat) × Image) :=
  (splitTiles img T).map fun r => (r.1, filter r.2)

/-- Full pipeline (split → dispatch/filter → collect → stitch), with the
collector receiving the results in the order `arrival`. -/
def runPipeline (img : Image) (T : Nat)
    (arrival : List ((Nat × Nat) × Image)) : Image :=
  stitchGrid img.width img.height T (collectGrid arrival)

/-- Pixel-wise equality on the image bounds: what byte-for-byte equality of
the encoded file means for a lossless, deterministic codec. -/
def Image.sameAs (a b : Image) : Prop :=
  a.width = b.width ∧ a.height = b.height ∧
    ∀ i j, i < b.width → j < b.height → a.px i j = b.px i j

/-! ## The zero-copy exchange strategy (`runTile` of the zero-copy driver) -/

/-- The failing stage of one zero-copy invocation, following the wrapped
error messages of `runTile`: `"zero length output"` (the spec's
`GuestFilterError`), a rejected guest-memory read (`"mem output"`, the
spec's `MemoryBoundsError`), and a failed `png.Decode` (`"decode"`, the
spec's `CodecError`). -/
inductive RunErr where
  | guestFilterError
  | memoryBoundsError
  | codecError
deriving DecidableEq

/-- Guest linear memory and allocator state of one VM slot.  `mem a` is the
byte stored at address `a`; `allocs` is the list of live `(ptr, len)`
allocations, newest first; `nextPtr` is the bump allocator's next free
address.  Modelled from the spec: the guest module (`filter.wasm`) is an
external artifact; its `alloc`/`dealloc` exports are modelled as a bump
allocator tracking the live allocations. -/
structure VMState where
  mem : Nat → Nat
  allocs : List (Nat × Nat)
  nextPtr : Nat

/-- Modelled from the spec: guest `alloc(len) -> ptr` reserves `len` bytes of
guest linear memory. -/
def guestAlloc (vm : VMState) (len : Nat) : VMState × Nat :=
  (⟨vm.mem, (vm.nextPtr, len) :: vm.allocs, vm.nextPtr + len⟩, vm.nextPtr)

/-- Modelled from the spec: guest `dealloc(ptr, len)` releases a previously
allocated region (the first matching live allocation). -/
def guestDealloc (vm : VMState) (ptr len : Nat) : VMState :=
  ⟨vm.mem, vm.allocs.erase (ptr, len), vm.nextPtr⟩

/-- Host write into guest linear memory (`mem.GetData` + `copy`). -/
def memWrite (vm : VMState) (ptr : Nat) (bytes : List Nat) : VMState :=
  ⟨fun a => if ptr ≤ a ∧ a < ptr + bytes.length then bytes.getD (a - ptr) 0 % 256
    else vm.mem a,
   vm.allocs, vm.nextPtr⟩

/-- Host read of `len` bytes of guest linear memory at `ptr` (`mem.GetData` +
`copy`); guest memory holds bytes, so values are reduced mod 256. -/
def memRead (vm : VMState) (ptr len : Nat) : List Nat :=
  (List.range len).map fun k => vm.mem (ptr + k) % 256

/-- The four little-endian bytes of a 32-bit value. -/
def le32Bytes (n : Nat) : List Nat :=
  [n % 256, n / 256 % 256, n / 65536 % 256, n / 16777216 % 256]

/-- Modelled from the spec: the guest filter entry point
`(inPtr, inLen, outParamsPtr) -> resultLen`.  The abstract filter function
`f` maps the input bytes to the output bytes, or to `none` on failure.  On
success the guest allocates the output buffer, writes the output bytes into
it, writes the 8-byte little-endian `(outPtr, outLen)` descriptor at
`outParamsPtr`, and returns `outLen`; on failure it returns 0. -/
def guestFilter (f : List Nat → Option (List Nat)) (vm : VMState)
    (inPtr inLen outParamsPtr : Nat) : VMState × Nat :=
  match f (memRead vm inPtr inLen) with
  | none => (vm, 0)
  | some outBytes =>
    let a := guestAlloc vm outBytes.length
    let vm1 := memWrite a.1 a.2 outBytes
    let vm2 := memWrite vm1 outParamsPtr (le32Bytes a.2 ++ le32Bytes outBytes.length)
    (vm2, outBytes.length)

/-- Reinterpret the low 32 bits of `u` as a two's-complement signed value:
the value of a Go `int32` holding that bit pattern. -/
def toSigned32 (u : Nat) : Int :=
  if u % 4294967296 < 2147483648 then ((u % 4294967296 : Nat) : Int)
  else ((u % 4294967296 : Nat) : Int) - 4294967296

/-- The descriptor field decode of `runTile`:
`int32(b[0]) | int32(b[1])<<8 | int32(b[2])<<16 | int32(b[3])<<24`.
Go's `|` of the disjoint shifted bytes assembles the 32-bit little-endian
bit pattern; the resulting value is that of a signed `int32`. -/
def goDecode32 (b0 b1 b2 b3 : Nat) : Int :=
  toSigned32 (b0 ||| (b1 <<< 8) ||| (b2 <<< 16) ||| (b3 <<< 24))

/-- The unsigned little-endian 32-bit interpretation of four bytes — the
decoding that the design document specifies for the output descriptor. -/
def leU32 (b0 b1 b2 b3 : Nat) : Nat :=
  b0 + 256 * b1 + 65536 * b2 + 16777216 * b3

/-- One host→guest call issued during an invocation. -/
inductive GuestCall where
  | alloc (len : Nat)
  | filterCall (inPtr inLen outParamsPtr : Nat)
  | dealloc (ptr len : Nat)
deriving DecidableEq

/-- Outcome of one zero-copy invocation: the host-side result (the
copied-out result bytes, or the failing stage), the VM state after the
invocation, and the ordered trace of host→guest calls. -/
structure RunOut where
  res : Except RunErr (List Nat)
  vm : VMState
  trace : List GuestCall

/-- The zero-copy invocation of one (already PNG-encoded) tile on one VM
slot; mirrors `runTile` of the zero-copy driver: alloc the input buffer,
copy the input bytes in, alloc the 8-byte output descriptor, call the
filter entry point, fail on `resultLen == 0` ("zero length output"), read
the descriptor and decode it with Go `int32` arithmetic, copy the result
bytes out (`mem.GetData(uint(outPtr), uint(outLen))` rejects the address
when the decoded `int32` is negative — the Go `uint` conversion
sign-extends it far past any memory size), decode the result PNG
(`decodeOk`), and only then dealloc the three buffers, in source order.
WasmEdge `Execute` transport errors are not modelled (the modelled guest
always responds). -/
def runTile (decodeOk : List Nat → Bool) (f : List Nat → Option (List Nat))
    (vm0 : VMState) (inBytes : List Nat) : RunOut :=
  let inLen := inBytes.length
  let a1 := guestAlloc vm0 inLen
  let inPtr := a1.2
  let vm2 := memWrite a1.1 inPtr inBytes
  let a2 := guestAlloc vm2 8
  let outParamsPtr := a2.2
  let fr := guestFilter f a2.1 inPtr inLen outParamsPtr
  let vm4 := fr.1
  let resultLen := fr.2
  let trace0 := [GuestCall.alloc inLen, GuestCall.alloc 8,
                 GuestCall.filterCall inPtr inLen outParamsPtr]
  if resultLen = 0 then
    ⟨Except.error RunErr.guestFilterError, vm4, trace0⟩
  else
    let paramBytes := memRead vm4 outParamsPtr 8
    let outPtrZ := goDecode32 (paramBytes.getD 0 0) (paramBytes.getD 1 0)
      (paramBytes.getD 2 0) (paramBytes.getD 3 0)
    let outLenZ := goDecode32 (paramBytes.getD 4 0) (paramBytes.getD 5 0)
      (paramBytes.getD 6 0) (paramBytes.getD 7 0)
    if outPtrZ < 0 ∨ outLenZ < 0 then
      ⟨Except.error RunErr.memoryBoundsError, vm4, trace0⟩
    else
      let outPtr := outPtrZ.toNat
      let outLen := outLenZ.toNat
      let outBytes := memRead vm4 outPtr outLen
      if decodeOk outBytes then
        let vm5 := guestDealloc vm4 inPtr inLen
        let vm6 := guestDealloc vm5 outPtr outLen
        let vm7 := guestDealloc vm6 outParamsPtr 8
        ⟨Except.ok outBytes, vm7,
         trace0 ++ [GuestCall.dealloc inPtr inLen, GuestCall.dealloc outPtr outLen,
                    GuestCall.dealloc outParamsPtr 8]⟩
      else
        ⟨Except.error RunErr.codecError, vm4, trace0⟩

/-! ## The zero-copy run (`processImage`): dispatch, collect, fail-fast -/

/-- The results of one `processImage` run in completion (arrival) order
`order`: each worker goroutine runs `runTile` on its own slot and publishes
a result record carrying the task's grid coordinates.  `filterOf c` is the
guest filter behavior on tile `c`'s input, `slotOf c` the slot state the
tile is invoked on, `tileBytes c` its encoded bytes. -/
def resultsOf (decodeOk : List Nat → Bool)
    (filterOf : Nat × Nat → List Nat → Option (List Nat))
    (slotOf : Nat × Nat → VMState) (tileBytes : Nat × Nat → List Nat)
    (order : List (Nat × Nat)) :
    List ((Nat × Nat) × Except RunErr (List Nat)) :=
  order.map fun c => (c, (runTile decodeOk (filterOf c) (slotOf c) (tileBytes c)).res)

/-- The collect loop of `processImage`: consume the results in arrival
order; at the first failed result run
`log.Fatalf("tile %d,%d error: %v", res.x, res.y, res.err)`, aborting the
whole run tagged with the failing tile's coordinates; otherwise keep every
result. -/
def collectResults :
    List ((Nat × Nat) × Except RunErr (List Nat)) →
      Except ((Nat × Nat) × RunErr) (List ((Nat × Nat) × List Nat))
  | [] => Except.ok []
  | (c, Except.error e) :: _ => Except.error (c, e)
  | (c, Except.ok v) :: rest => (collectResults rest).map fun l => (c, v) :: l

/-- One `processImage` run with the zero-copy strategy, up to stitching: an
`Except.error` is the `log.Fatalf` abort (no final image is produced); an
`Except.ok` is the complete result set handed to the stitch loop. -/
def processImageZC (decodeOk : List Nat → Bool)
    (filterOf : Nat × Nat → List Nat → Option (List Nat))
    (slotOf : Nat × Nat → VMState) (tileBytes : Nat × Nat → List Nat)
    (order : List (Nat × Nat)) :
    Except ((Nat × Nat) × RunErr) (List ((Nat × Nat) × List Nat)) :=
  collectResults (resultsOf decodeOk filterOf slotOf tileBytes order)

/-! ## The streamed-pipe exchange strategy (`apps/cli/main.go`) -/

/-- The behavior of one launch of the external `wasmedge` process: the bytes
it writes to its standard output before exiting, and whether it exits
successfully. -/
structure ProcRun where
  output : List Nat
  exitOk : Bool

/-- The observable steps of `runWasmFilter`, in program order. -/
inductive PipeEvent where
  | openInput (path : String)
  | createOutput (path : String)
  | launch
deriving DecidableEq

/-- A file system: the contents, if any, at each path. -/
def FileSys := String → Option (List Nat)

/-- The empty file system. -/
def emptyFS : FileSys := fun _ => none

/-- Write (create or truncate-and-write) a file. -/
def writeFS (fs : FileSys) (p : String) (v : List Nat) : FileSys :=
  fun q => if q = p then some v else fs q

/-- `runWasmFilter(inPath, outPath)` of `apps/cli/main.go`: open the input
tile (on failure only log and return), `os.Create` — create/truncate — the
output tile, attach the streams, and `cmd.Run()` the `wasmedge` process; a
process failure is only logged (`"ERROR processing ..."`).  The function
returns nothing: no error ever reaches the caller (modelled as the constant
`none` in the last component).  The output file ends up holding whatever
the process wrote to its standard output (`proc.output`, possibly empty or
partial).  `os.Create` failures are not modelled (the modelled file system
is always writable). -/
def runWasmFilter (proc : ProcRun) (fs : FileSys) (inPath outPath : String) :
    FileSys × List PipeEvent × Option Unit :=
  match fs inPath with
  | none => (fs, [PipeEvent.openInput inPath], none)
  | some _ =>
    let fs1 := writeFS fs outPath []
    let fs2 := writeFS fs1 outPath proc.output
    (fs2, [PipeEvent.openInput inPath, PipeEvent.createOutput outPath,
           PipeEvent.launch], none)

/-- Tile codec of the pipe pipeline: PNG encoding/decoding of a tile file,
abstracted (the codec is an external collaborator). -/
structure Codec where
  enc : Image → List Nat
  dec : List Nat → Option Image

/-- The per-tile file name `dir + "/tile_x_y.png"`. -/
def tilePath (dir : String) (x y : Nat) : String :=
  dir ++ "/tile_" ++ toString x ++ "_" ++ toString y ++ ".png"

/-- Step 3 of `apps/cli/main.go` `main`: save every split tile under
`tiles/tile_x_y.png`. -/
def saveTiles (codec : Codec) (img : Image) (T : Nat) (fs : FileSys) : FileSys :=
  (splitTiles img T).foldl
    (fun fs r => writeFS fs (tilePath "tiles" r.1.1 r.1.2) (codec.enc r.2)) fs

/-- Step 4: run the WASM filter process on every tile file.  The goroutines
write to distinct files, so every completion order yields the same file
system; it is modelled in grid order.  `procOf p` is the behavior of the
external process launched for the tile at `p`. -/
def filterTiles (procOf : Nat × Nat → ProcRun) (rows cols : Nat)
    (fs : FileSys) : FileSys :=
  (gridCoords rows cols).foldl
    (fun fs p =>
      (runWasmFilter (procOf p) fs (tilePath "tiles" p.1 p.2)
        (tilePath "output" p.1 p.2)).1) fs

/-- Step 5: stitch the processed tiles; `imaging.Open` + `checkErr` kill the
program (`log.Fatal`) if a processed tile file is missing or fails to
decode — modelled as `none` (no final image). -/
def stitchFiles (codec : Codec) (img : Image) (T : Nat) (fs : FileSys) :
    Option Image :=
  (gridCoords (tileRows img.height T) (tileCols img.width T)).foldl
    (fun acc p =>
      match acc with
      | none => none
      | some fi =>
        match fs (tilePath "output" p.1 p.2) with
        | none => none
        | some bytes =>
          match codec.dec bytes with
          | none => none
          | some t => some (paste fi t (p.1 * T) (p.2 * T)))
    (some (blank img.width img.height))

/-- The full streamed-pipe pipeline of `apps/cli/main.go` for one image:
`some final` when the program reaches the final save, `none` when it dies
in the stitch loop. -/
def pipePipeline (codec : Codec) (procOf : Nat × Nat → ProcRun)
    (img : Image) (T : Nat) : Option Image :=
  stitchFiles codec img T
    (filterTiles procOf (tileRows img.height T) (tileCols img.width T)
      (saveTiles codec img T emptyFS))

/-- A concrete codec for counterexample runs: any byte stream decodes (the
external process produced a well-formed PNG before failing). -/
def pipeCodec : Codec := ⟨fun t => [t.px 0 0 % 256], fun _ => some (blank 1 1)⟩

/-- A concrete failing external process: it writes one output byte and then
exits with a non-zero status. -/
def pipeProcFail : Nat × Nat → ProcRun := fun _ => ⟨[7], false⟩

/-- Concrete per-tile guest behavior for the C6 witness run: the guest of
tile `(0,0)` always returns a zero result length, every other guest
succeeds with a one-byte result. -/
def c6Filters : Nat × Nat → List Nat → Option (List Nat) :=
  fun c => if c = (0, 0) then fun _ => none else fun _ => some [1]

/-- Concrete slot assignment for the C6 witness run. -/
def c6Slot : Nat × Nat → VMState := fun _ => ⟨fun _ => 0, [], 1⟩

/-- Concrete encoded tile bytes for the C6 witness run. -/
def c6Bytes : Nat × Nat → List Nat := fun _ => [5]

/-! ## The split-grid arithmetic over Go `int` (no tile-size validation) -/

/-- The grid computation of `processImage` over Go `int`, for an arbitrary
(possibly non-positive) `tileSize` — no validation of the tile size exists
anywhere in the sources.  Go's `/` truncates toward zero (`Int.tdiv`).
For `tileSize = 0` the Go program panics with an integer division by zero
(Lean's `Int.tdiv` by zero is 0 instead; the panic is discussed at the
theorem). -/
def tileColsGo (W T : Int) : Int := Int.tdiv (W + T - 1) T

/-- `rows` over Go `int`, as `tileColsGo`. -/
def tileRowsGo (H T : Int) : Int := Int.tdiv (H + T - 1) T

/-- The split loops `for y := 0; y < rows; y++ { for x := 0; x < cols; x++ }`
run `toNat` many times each (zero times for a non-positive bound).  For
`T > 0` this agrees with `splitTiles`; for `T ≤ 0` the coordinate list is
empty, so the crop rectangle expression is never evaluated. -/
def splitTilesGo (img : Image) (T : Int) : List ((Nat × Nat) × Image) :=
  (gridCoords (tileRowsGo img.height T).toNat (tileColsGo img.width T).toNat).map
    fun p => (p, crop img (tileRect img.width img.height T.toNat p.1 p.2))

/-- The stitch loop over the Go `int` grid bounds. -/
def stitchGridGo (W H : Nat) (T : Int) (g : Nat × Nat → Option Image) : Image :=
  pasteTiles T.toNat g (blank W H)
    (gridCoords (tileRowsGo H T).toNat (tileColsGo W T).toNat)

/-- One full run with tile size given as a Go `int` (identity filter, results
in dispatch order): the sources have no configuration-validation path at
all, so the run always proceeds to a final image. -/
def runPipelineGo (img : Image) (T : Int) : Image :=
  stitchGridGo img.width img.height T
    (collectGrid ((splitTilesGo img T).map fun r => (r.1, r.2)))

/-- A concrete 512×512 source image used at the `T ≤ 0` failing input. -/
def c9Img : Image := ⟨512, 512, fun i j => (i + j) % 256⟩

/-- The TileSplitter property claimed by the design document (§4.1 and the
tiling invariant), stated from the spec's words for comparison with the
embedded splitter: tile count `⌈W/T⌉ × ⌈H/T⌉`; the tile of column `c`, row
`r` crops the rectangle `(c·T, r·T)`-`(min((c+1)·T, W), min((r+1)·T, H))`;
every tile rectangle lies inside the image bounds; and every pixel of the
bounds lies in exactly one tile rectangle (no gaps, no overlaps). -/
def TileSplitterClaim (img : Image) (T : Nat) : Prop :=
  (splitTiles img T).length = (img.width ⌈/⌉ T) * (img.height ⌈/⌉ T)
  ∧ splitTiles img T =
      (gridCoords (tileRows img.height T) (tileCols img.width T)).map
        (fun p => (p, crop img
          ⟨p.1 * T, p.2 * T, min ((p.1 + 1) * T) img.width,
            min ((p.2 + 1) * T) img.height⟩))
  ∧ (∀ p ∈ gridCoords (tileRows img.height T) (tileCols img.width T),
      ∀ i j, (tileRect img.width img.height T p.1 p.2).holds i j →
        i < img.width ∧ j < img.height)
  ∧ ∀ i j, i < img.width → j < img.height →
      ∃! p, p ∈ gridCoords (tileRows img.height T) (tileCols img.width T) ∧
        (tileRect img.width img.height T p.1 p.2).holds i j

/-! ## Helper lemmas: grid traversal, collector, stitcher -/

theorem mem_gridCoords {rows cols : Nat} {p : Nat × Nat} :
    p ∈ gridCoords rows cols ↔ p.1 < cols ∧ p.2 < rows := by
  cases p with
  | mk c r =>
    simp only [gridCoords, List.mem_flatMap, List.mem_map, List.mem_range,
      Prod.mk.injEq]
    constructor
    · rintro ⟨a, ha, b, hb, hbc, har⟩
      exact ⟨hbc ▸ hb, har ▸ ha⟩
    · rintro ⟨hc, hr⟩
      exact ⟨r, hr, c, hc, rfl, rfl⟩

theorem length_gridCoords (rows cols : Nat) :
    (gridCoords rows cols).length = rows * cols := by
  induction rows with
  | zero => simp [gridCoords]
  | succ n ih =>
    simp only [gridCoords, List.range_succ, List.flatMap_append] at ih ⊢
    simp [ih.symm, gridCoords, Nat.succ_mul]

theorem collectFold_of_not_mem :
    ∀ (L : List ((Nat × Nat) × Image)) (g0 : Nat × Nat → Option Image)
      (p : Nat × Nat), (∀ w, (p, w) ∉ L) →
      L.foldl (fun g res p' => if p' = res.1 then some res.2 else g p') g0 p = g0 p := by
  intro L
  induction L with
  | nil => intro g0 p _; rfl
  | cons e L ih =>
    intro g0 p h
    rw [List.foldl_cons, ih _ p (fun w hw => h w (List.mem_cons_of_mem _ hw))]
    rw [if_neg]
    intro hpe
    exact h e.2 (by rw [hpe]; simp)

theorem collectFold_of_mem :
    ∀ (L : List ((Nat × Nat) × Image)) (g0 : Nat × Nat → Option Image)
      (p : Nat × Nat) (v : Image), (p, v) ∈ L → (∀ w, (p, w) ∈ L → w = v) →
      L.foldl (fun g res p' => if p' = res.1 then some res.2 else g p') g0 p = some v := by
  intro L
  induction L with
  | nil => intro g0 p v hmem _; cases hmem
  | cons e L ih =>
    intro g0 p v hmem huniq
    rw [List.foldl_cons]
    by_cases hL : ∃ w, (p, w) ∈ L
    · obtain ⟨w, hw⟩ := hL
      have hwv : w = v := huniq w (List.mem_cons_of_mem _ hw)
      subst hwv
      exact ih _ p w hw fun u hu => huniq u (List.mem_cons_of_mem _ hu)
    · have hpe : e = (p, v) := by
        rcases List.mem_cons.mp hmem with h | h
        · exact h.symm
        · exact absurd ⟨v, h⟩ hL
      subst hpe
      push_neg at hL
      rw [collectFold_of_not_mem L _ p hL]
      simp

theorem mem_canonicalResults {img : Image} {T : Nat} {F : Image → Image}
    {p : Nat × Nat} {w : Image} :
    (p, w) ∈ canonicalResults img T F ↔
      p ∈ gridCoords (tileRows img.height T) (tileCols img.width T) ∧
        w = F (crop img (tileRect img.width img.height T p.1 p.2)) := by
  simp only [canonicalResults, splitTiles, List.map_map, List.mem_map,
    Function.comp, Prod.mk.injEq]
  constructor
  · rintro ⟨q, hq, rfl, rfl⟩
    exact ⟨hq, rfl⟩
  · rintro ⟨hp, rfl⟩
    exact ⟨p, hp, rfl, rfl⟩

theorem collectGrid_of_perm {arrival : List ((Nat × Nat) × Image)}
    {img : Image} {T : Nat} {F : Image → Image}
    (hperm : arrival.Perm (canonicalResults img T F)) {p : Nat × Nat}
    (hp : p ∈ gridCoords (tileRows img.height T) (tileCols img.width T)) :
    collectGrid arrival p =
      some (F (crop img (tileRect img.width img.height T p.1 p.2))) := by
  apply collectFold_of_mem
  · exact hperm.mem_iff.mpr (mem_canonicalResults.mpr ⟨hp, rfl⟩)
  · intro w hw
    exact (mem_canonicalResults.mp (hperm.mem_iff.mp hw)).2

theorem pasteStep_width (T : Nat) (g : Nat × Nat → Option Image)
    (acc : Image) (p : Nat × Nat) : (pasteStep T g acc p).width = acc.width := by
  unfold pasteStep
  cases g p <;> rfl

theorem pasteStep_height (T : Nat) (g : Nat × Nat → Option Image)
    (acc : Image) (p : Nat × Nat) : (pasteStep T g acc p).height = acc.height := by
  unfold pasteStep
  cases g p <;> rfl

theorem pasteTiles_width (T : Nat) (g : Nat × Nat → Option Image) :
    ∀ (cs : List (Nat × Nat)) (acc : Image),
      (pasteTiles T g acc cs).width = acc.width := by
  intro cs
  induction cs with
  | nil => intro acc; rfl
  | cons p cs ih =>
    intro acc
    show (pasteTiles T g (pasteStep T g acc p) cs).width = acc.width
    rw [ih, pasteStep_width]

theorem pasteTiles_height (T : Nat) (g : Nat × Nat → Option Image) :
    ∀ (cs : List (Nat × Nat)) (acc : Image),
      (pasteTiles T g acc cs).height = acc.height := by
  intro cs
  induction cs with
  | nil => intro acc; rfl
  | cons p cs ih =>
    intro acc
    show (pasteTiles T g (pasteStep T g acc p) cs).height = acc.height
    rw [ih, pasteStep_height]

theorem div_mul_bounds (i T : Nat) (hT : 0 < T) :
    i / T * T ≤ i ∧ i < i / T * T + T := by
  refine ⟨Nat.div_mul_le_self i T, ?_⟩
  have h2 := Nat.mod_lt i hT
  calc i = T * (i / T) + i % T := (Nat.div_add_mod i T).symm
  _ < T * (i / T) + T := Nat.add_lt_add_left h2 _
  _ = i / T * T + T := by rw [Nat.mul_comm]

theorem div_eq_of_between {c i T : Nat} (h1 : c * T ≤ i) (h2 : i < c * T + T) :
    i / T = c :=
  Nat.div_eq_of_lt_le h1 (by rwa [Nat.succ_mul])

theorem div_lt_tileCols {i W T : Nat} (hT : 0 < T) (hi : i < W) :
    i / T < tileCols W T := by
  have hW : 1 ≤ W := by omega
  have h1 : W + T - 1 = (W - 1) + T := by omega
  unfold tileCols
  rw [h1, Nat.add_div_right _ hT]
  have h2 : i / T ≤ (W - 1) / T := Nat.div_le_div_right (by omega)
  omega

theorem pasteTiles_px (img : Image) (W H T : Nat) (hT : 0 < T)
    (g : Nat × Nat → Option Image) :
    ∀ (cs : List (Nat × Nat)) (acc : Image),
      (∀ p ∈ cs, g p = some (crop img (tileRect W H T p.1 p.2))) →
      acc.width = W → acc.height = H →
      ∀ i j, i < W → j < H →
        (pasteTiles T g acc cs).px i j =
          if (i / T, j / T) ∈ cs then img.px i j else acc.px i j := by
  intro cs
  induction cs with
  | nil =>
    intro acc _ _ _ i j _ _
    simp [pasteTiles]
  | cons p cs ih =>
    intro acc hg hW hH i j hi hj
    have hstepW : (pasteStep T g acc p).width = W := by rw [pasteStep_width, hW]
    have hstepH : (pasteStep T g acc p).height = H := by rw [pasteStep_height, hH]
    have hrec := ih (pasteStep T g acc p)
      (fun q hq => hg q (List.mem_cons_of_mem _ hq)) hstepW hstepH i j hi hj
    show (pasteTiles T g (pasteStep T g acc p) cs).px i j = _
    rw [hrec]
    have hgp := hg p (List.mem_cons_self _ _)
    by_cases hmem : (i / T, j / T) ∈ cs
    · rw [if_pos hmem, if_pos (List.mem_cons_of_mem _ hmem)]
    · rw [if_neg hmem]
      by_cases hp : p = (i / T, j / T)
      · rw [if_pos (by rw [hp]; exact List.mem_cons_self _ _)]
        subst hp
        rw [pasteStep, hgp]
        have hb1 := div_mul_bounds i T hT
        have hb2 := div_mul_bounds j T hT
        have hxw : i / T * T + (min (i / T * T + T) W - i / T * T)
            = min (i / T * T + T) W := by
          have : i / T * T ≤ min (i / T * T + T) W := by
            have := Nat.le_of_lt (Nat.lt_of_le_of_lt hb1.1 hi)
            omega
          omega
        simp only [paste, crop, tileRect]
        rw [if_pos]
        · show img.px (i / T * T + (i - i / T * T)) (j / T * T + (j - j / T * T))
            = img.px i j
          rw [Nat.add_sub_cancel' hb1.1, Nat.add_sub_cancel' hb2.1]
        · refine ⟨hW ▸ hi, hH ▸ hj, hb1.1, ?_, hb2.1, ?_⟩
          · rw [hxw]
            exact lt_min hb1.2 hi
          · have hyw : j / T * T + (min (j / T * T + T) H - j / T * T)
                = min (j / T * T + T) H := by
              have : j / T * T ≤ min (j / T * T + T) H := by
                have := Nat.le_of_lt (Nat.lt_of_le_of_lt hb2.1 hj)
                omega
              omega
            rw [hyw]
            exact lt_min hb2.2 hj
      · rw [if_neg (by simp only [List.mem_cons]; push_neg; exact ⟨fun h => hp h.symm, hmem⟩)]
        rw [pasteStep, hgp]
        simp only [paste, crop, tileRect]
        rw [if_neg]
        rintro ⟨-, -, hx1, hx2, hy1, hy2⟩
        apply hp
        have hwle : min (p.1 * T + T) W - p.1 * T ≤ T := by
          have := min_le_left (p.1 * T + T) W
          omega
        have hhle : min (p.2 * T + T) H - p.2 * T ≤ T := by
          have := min_le_left (p.2 * T + T) H
          omega
        have e1 : i / T = p.1 := div_eq_of_between hx1 (by omega)
        have e2 : j / T = p.2 := div_eq_of_between hy1 (by omega)
        rw [e1, e2]

theorem pasteTiles_congr (T : Nat) (g1 g2 : Nat × Nat → Option Image) :
    ∀ (cs : List (Nat × Nat)) (acc : Image), (∀ p ∈ cs, g1 p = g2 p) →
      pasteTiles T g1 acc cs = pasteTiles T g2 acc cs := by
  intro cs
  induction cs with
  | nil => intro acc _; rfl
  | cons p cs ih =>
    intro acc h
    show pasteTiles T g1 (pasteStep T g1 acc p) cs
      = pasteTiles T g2 (pasteStep T g2 acc p) cs
    rw [show pasteStep T g1 acc p = pasteStep T g2 acc p by
      rw [pasteStep, pasteStep, h p (List.mem_cons_self _ _)]]
    exact ih _ fun q hq => h q (List.mem_cons_of_mem _ hq)

/-! ## Claim C1: identity-filter round trip -/

/-- **C1.**  For every source image, every tile size `T > 0` and every worker
count `N ≥ 1`, the full pipeline — TileSplitter, then Dispatcher with an
identity filter, then Stitcher — reproduces the source image byte-for-byte.
The `N` concurrent workers influence only the order in which results reach
the collector, so a run is modelled by an arbitrary arrival permutation of
the dispatched results. -/
theorem identity_roundTrip (img : Image) (T N : Nat) (hT : 0 < T) (hN : 1 ≤ N)
    (arrival : List ((Nat × Nat) × Image))
    (hperm : arrival.Perm (canonicalResults img T fun t => t)) :
    (runPipeline img T arrival).sameAs img := by
  refine ⟨?_, ?_, ?_⟩
  · rw [runPipeline, stitchGrid, pasteTiles_width]; rfl
  · rw [runPipeline, stitchGrid, pasteTiles_height]; rfl
  · intro i j hi hj
    rw [runPipeline, stitchGrid]
    rw [pasteTiles_px img img.width img.height T hT (collectGrid arrival) _
      (blank img.width img.height)
      (fun p hp => collectGrid_of_perm hperm hp) rfl rfl i j hi hj]
    rw [if_pos (mem_gridCoords.mpr ⟨div_lt_tileCols hT hi, div_lt_tileCols hT hj⟩)]

/-- Witness for C1 at a concrete 2×1 image, `T = 1`, `N = 1`, arrival in
dispatch order. -/
theorem identity_roundTrip_witness :
    0 < 1 ∧ 1 ≤ 1 ∧
      (runPipeline ⟨2, 1, fun i j => i + 10 * j⟩ 1
        (canonicalResults ⟨2, 1, fun i j => i + 10 * j⟩ 1 fun t => t)).sameAs
        ⟨2, 1, fun i j => i + 10 * j⟩ :=
  ⟨by decide, by decide,
    identity_roundTrip _ 1 1 (by decide) (by decide) _ (List.Perm.refl _)⟩

/-! ## Claim C2: the tile grid -/

/-- **C2.**  For every image and every tile edge length `T > 0` the
TileSplitter produces exactly `⌈W/T⌉ × ⌈H/T⌉` tiles; the tile at column
`c`, row `r` crops the rectangle `(c·T, r·T)`-`(min((c+1)·T, W),
min((r+1)·T, H))`; every tile rectangle lies inside the image bounds and
every pixel of the bounds lies in exactly one tile rectangle. -/
theorem tileSplitter_spec (img : Image) (T : Nat) (hT : 0 < T) :
    TileSplitterClaim img T := by
  refine ⟨?_, ?_, ?_, ?_⟩
  · rw [splitTiles, List.length_map, length_gridCoords,
      Nat.ceilDiv_eq_add_pred_div, Nat.ceilDiv_eq_add_pred_div]
    unfold tileRows tileCols
    exact Nat.mul_comm _ _
  · simp [splitTiles, tileRect, Nat.succ_mul]
  · intro p hp i j h
    simp only [Rect.holds, tileRect] at h
    exact ⟨lt_of_lt_of_le h.2.1 (min_le_right _ _),
      lt_of_lt_of_le h.2.2.2 (min_le_right _ _)⟩
  · intro i j hi hj
    have hb1 := div_mul_bounds i T hT
    have hb2 := div_mul_bounds j T hT
    refine ⟨(i / T, j / T),
      ⟨mem_gridCoords.mpr ⟨div_lt_tileCols hT hi, div_lt_tileCols hT hj⟩,
        hb1.1, lt_min hb1.2 hi, hb2.1, lt_min hb2.2 hj⟩, ?_⟩
    rintro q ⟨_, h1, h2, h3, h4⟩
    simp only [Rect.holds, tileRect] at h1 h2 h3 h4
    have e1 : i / T = q.1 :=
      div_eq_of_between h1 (lt_of_lt_of_le h2 (min_le_left _ _))
    have e2 : j / T = q.2 :=
      div_eq_of_between h3 (lt_of_lt_of_le h4 (min_le_left _ _))
    rw [e1, e2]

/-- Witness for C2 at a concrete 3×2 image with `T = 2` (a 2×1 grid with a
clipped last column). -/
theorem tileSplitter_spec_witness :
    0 < 2 ∧ TileSplitterClaim ⟨3, 2, fun i j => i + 10 * j⟩ 2 :=
  ⟨by decide, tileSplitter_spec _ 2 (by decide)⟩

/-! ## Claim C8: determinism across completion interleavings -/

/-- **C8.**  Two runs on the same inputs with the same worker count `N`
produce byte-identical final images for every pair of completion
interleavings — every pair of arrival permutations of the dispatched
results — because the collector keys results purely by grid coordinates
(filter and codec deterministic by assumption: both runs dispatch
`canonicalResults img T F`). -/
theorem arrival_order_deterministic (img : Image) (T N : Nat)
    (F : Image → Image) (hT : 0 < T) (hN : 1 ≤ N)
    (a1 a2 : List ((Nat × Nat) × Image))
    (h1 : a1.Perm (canonicalResults img T F))
    (h2 : a2.Perm (canonicalResults img T F)) :
    runPipeline img T a1 = runPipeline img T a2 := by
  unfold runPipeline stitchGrid
  apply pasteTiles_congr
  intro p hp
  rw [collectGrid_of_perm h1 hp, collectGrid_of_perm h2 hp]

/-- Witness for C8 at a concrete 2×1 image, `T = 1`, `N = 1`, the arrival of
the second run reversed. -/
theorem arrival_order_deterministic_witness :
    0 < 1 ∧ 1 ≤ 1 ∧
      runPipeline ⟨2, 1, fun i j => i + 10 * j⟩ 1
          (canonicalResults ⟨2, 1, fun i j => i + 10 * j⟩ 1 fun t => t)
        = runPipeline ⟨2, 1, fun i j => i + 10 * j⟩ 1
          (canonicalResults ⟨2, 1, fun i j => i + 10 * j⟩ 1 fun t => t).reverse :=
  ⟨by decide, by decide,
    arrival_order_deterministic _ 1 1 _ (by decide) (by decide) _ _
      (List.Perm.refl _) (List.reverse_perm _)⟩

/-! ## Helper lemmas: guest memory and the descriptor encoding -/

theorem memRead_memWrite (vm : VMState) (p : Nat) (bytes : List Nat) :
    memRead (memWrite vm p bytes) p bytes.length = bytes.map (· % 256) := by
  unfold memRead memWrite
  apply List.ext_getElem
  · simp
  · intro k hk1 hk2
    simp only [List.length_map, List.length_range] at hk1 hk2
    simp only [List.getElem_map, List.getElem_range]
    rw [if_pos ⟨Nat.le_add_right _ _, by omega⟩, Nat.add_sub_cancel_left,
      Nat.mod_mod_of_dvd _ dvd_rfl, List.getD_eq_getElem _ _ hk2]

theorem memRead_memWrite_of_le (vm : VMState) (p q len : Nat) (bytes : List Nat)
    (h : p + bytes.length ≤ q) :
    memRead (memWrite vm p bytes) q len = memRead vm q len := by
  unfold memRead memWrite
  apply List.ext_getElem
  · simp
  · intro k hk1 hk2
    simp only [List.getElem_map, List.getElem_range]
    rw [if_neg]
    omega

theorem lor_shiftLeft_eq_add {a : Nat} (b k : Nat) (ha : a < 2 ^ k) :
    a ||| (b <<< k) = a + b * 2 ^ k := by
  apply Nat.eq_of_testBit_eq
  intro i
  rw [Nat.testBit_lor, Nat.testBit_shiftLeft]
  by_cases hik : k ≤ i
  · have hai : a.testBit i = false :=
      Nat.testBit_eq_false_of_lt
        (lt_of_lt_of_le ha (Nat.pow_le_pow_right (by norm_num) hik))
    have hdec : decide (i ≥ k) = true := decide_eq_true hik
    rw [hai, hdec, Bool.false_or, Bool.true_and]
    rw [Nat.testBit_to_div_mod, Nat.testBit_to_div_mod]
    have hsplit : (2 : Nat) ^ i = 2 ^ k * 2 ^ (i - k) := by
      rw [← pow_add]
      congr 1
      omega
    have h1 : (a + b * 2 ^ k) / 2 ^ i = b / 2 ^ (i - k) := by
      rw [hsplit, ← Nat.div_div_eq_div_mul,
        Nat.add_mul_div_right _ _ (Nat.pos_pow_of_pos k (by norm_num)),
        Nat.div_eq_of_lt ha, Nat.zero_add]
    rw [h1]
  · have hdec : decide (i ≥ k) = false := decide_eq_false hik
    rw [hdec, Bool.false_and, Bool.or_false]
    rw [Nat.testBit_to_div_mod, Nat.testBit_to_div_mod]
    have h2 : (a + b * 2 ^ k) / 2 ^ i = a / 2 ^ i + b * 2 ^ (k - i) := by
      rw [show b * 2 ^ k = b * 2 ^ (k - i) * 2 ^ i by
        rw [mul_assoc, ← pow_add]
        congr 2
        omega]
      exact Nat.add_mul_div_right _ _ (Nat.pos_pow_of_pos i (by norm_num))
    rw [h2]
    have h3 : b * 2 ^ (k - i) % 2 = 0 := by
      have hdvd : (2 : Nat) ∣ b * 2 ^ (k - i) :=
        Dvd.dvd.mul_left (dvd_pow_self 2 (by omega : k - i ≠ 0)) b
      obtain ⟨c, hc⟩ := hdvd
      rw [hc]
      exact Nat.mul_mod_right 2 c
    have h4 : (a / 2 ^ i + b * 2 ^ (k - i)) % 2 = a / 2 ^ i % 2 := by omega
    rw [h4]

theorem bytes_lor_eq {b0 b1 b2 b3 : Nat} (h0 : b0 < 256) (h1 : b1 < 256)
    (h2 : b2 < 256) :
    (b0 ||| (b1 <<< 8) ||| (b2 <<< 16) ||| (b3 <<< 24)) = leU32 b0 b1 b2 b3 := by
  have e1 : b0 ||| (b1 <<< 8) = b0 + b1 * 2 ^ 8 :=
    lor_shiftLeft_eq_add b1 8 (by norm_num; omega)
  have e2 : b0 + b1 * 2 ^ 8 ||| (b2 <<< 16) = b0 + b1 * 2 ^ 8 + b2 * 2 ^ 16 :=
    lor_shiftLeft_eq_add b2 16 (by norm_num; omega)
  have e3 : b0 + b1 * 2 ^ 8 + b2 * 2 ^ 16 ||| (b3 <<< 24)
      = b0 + b1 * 2 ^ 8 + b2 * 2 ^ 16 + b3 * 2 ^ 24 :=
    lor_shiftLeft_eq_add b3 24 (by norm_num; omega)
  rw [e1, e2, e3]
  unfold leU32
  norm_num
  ring

theorem toSigned32_mod (n : Nat) : toSigned32 (n % 4294967296) = toSigned32 n := by
  unfold toSigned32
  rw [Nat.mod_mod_of_dvd _ dvd_rfl]

theorem toSigned32_of_lt {n : Nat} (h : n < 2147483648) : toSigned32 n = (n : Int) := by
  unfold toSigned32
  rw [Nat.mod_eq_of_lt (by omega), if_pos h]

theorem leU32_le32Bytes (n : Nat) :
    leU32 (n % 256) (n / 256 % 256) (n / 65536 % 256) (n / 16777216 % 256)
      = n % 4294967296 := by
  unfold leU32
  omega

theorem goDecode32_le32 (n : Nat) :
    goDecode32 (n % 256) (n / 256 % 256) (n / 65536 % 256) (n / 16777216 % 256)
      = toSigned32 n := by
  rw [goDecode32, bytes_lor_eq (Nat.mod_lt _ (by norm_num)) (Nat.mod_lt _ (by norm_num))
    (Nat.mod_lt _ (by norm_num)), leU32_le32Bytes, toSigned32_mod]

/-- The filter entry point reads back exactly the input bytes the host wrote
at `inPtr` (byte-clamped). -/
theorem filter_input_read_back (vm0 : VMState) (inBytes : List Nat) :
    memRead (guestAlloc (memWrite (guestAlloc vm0 inBytes.length).1
        (guestAlloc vm0 inBytes.length).2 inBytes) 8).1
      (guestAlloc vm0 inBytes.length).2 inBytes.length
      = inBytes.map (· % 256) :=
  memRead_memWrite _ _ _

/-- A guest filter that fails on the tile's input makes `runTile` fail with
the "zero length output" error. -/
theorem runTile_res_of_filter_none (decodeOk : List Nat → Bool)
    (f : List Nat → Option (List Nat)) (vm0 : VMState) (inBytes : List Nat)
    (hf : f (inBytes.map (· % 256)) = none) :
    (runTile decodeOk f vm0 inBytes).res = Except.error RunErr.guestFilterError := by
  simp only [runTile, guestFilter, filter_input_read_back, hf, if_true]

/-- Anatomy of a successful guest filter call: result length, allocation of
the output buffer, and the two read-backs (descriptor and output bytes). -/
theorem guestFilter_some (f : List Nat → Option (List Nat)) (vm : VMState)
    (inPtr inLen pp : Nat) (outBytes : List Nat)
    (hf : f (memRead vm inPtr inLen) = some outBytes)
    (hpp : pp + 8 ≤ vm.nextPtr) :
    (guestFilter f vm inPtr inLen pp).2 = outBytes.length ∧
    (guestFilter f vm inPtr inLen pp).1.allocs
      = (vm.nextPtr, outBytes.length) :: vm.allocs ∧
    (guestFilter f vm inPtr inLen pp).1.nextPtr = vm.nextPtr + outBytes.length ∧
    memRead (guestFilter f vm inPtr inLen pp).1 pp 8
      = (le32Bytes vm.nextPtr ++ le32Bytes outBytes.length).map (· % 256) ∧
    memRead (guestFilter f vm inPtr inLen pp).1 vm.nextPtr outBytes.length
      = outBytes.map (· % 256) := by
  refine ⟨?_, ?_, ?_, ?_, ?_⟩
  · simp only [guestFilter, hf]
  · simp only [guestFilter, hf]
    rfl
  · simp only [guestFilter, hf]
    rfl
  · simp only [guestFilter, hf]
    exact memRead_memWrite _ _ _
  · simp only [guestFilter, hf]
    rw [memRead_memWrite_of_le]
    · exact memRead_memWrite _ _ _
    · simpa using hpp

/-- Anatomy of a successful zero-copy invocation: the copied-out result, the
restored allocation list, and the full host→guest call trace.  `hsane` is
the wasm32 sanity bound: every address handed out during the invocation
fits in a 31-bit value (guest pointers are `u32` and the Go driver decodes
them through `int32`). -/
theorem runTile_ok_anatomy (decodeOk : List Nat → Bool)
    (f : List Nat → Option (List Nat)) (vm0 : VMState) (inBytes outBytes : List Nat)
    (hf : f (inBytes.map (· % 256)) = some outBytes)
    (hL : outBytes.length ≠ 0)
    (hdec : decodeOk (outBytes.map (· % 256)) = true)
    (hsane : vm0.nextPtr + inBytes.length + 8 + outBytes.length < 2147483648) :
    (runTile decodeOk f vm0 inBytes).res = Except.ok (outBytes.map (· % 256)) ∧
    (runTile decodeOk f vm0 inBytes).vm.allocs = vm0.allocs ∧
    (runTile decodeOk f vm0 inBytes).trace =
      [GuestCall.alloc inBytes.length, GuestCall.alloc 8,
       GuestCall.filterCall vm0.nextPtr inBytes.length
         (vm0.nextPtr + inBytes.length),
       GuestCall.dealloc vm0.nextPtr inBytes.length,
       GuestCall.dealloc (vm0.nextPtr + inBytes.length + 8) outBytes.length,
       GuestCall.dealloc (vm0.nextPtr + inBytes.length) 8] := by
  have hf' : f (memRead (guestAlloc (memWrite (guestAlloc vm0 inBytes.length).1
      (guestAlloc vm0 inBytes.length).2 inBytes) 8).1
      (guestAlloc vm0 inBytes.length).2 inBytes.length) = some outBytes := by
    rw [filter_input_read_back]
    exact hf
  have hpp : (guestAlloc (memWrite (guestAlloc vm0 inBytes.length).1
      (guestAlloc vm0 inBytes.length).2 inBytes) 8).2 + 8
      ≤ (guestAlloc (memWrite (guestAlloc vm0 inBytes.length).1
        (guestAlloc vm0 inBytes.length).2 inBytes) 8).1.nextPtr := Nat.le_refl _
  obtain ⟨hFlen, hAllocs, hNext, hDescr, hOut⟩ :=
    guestFilter_some f _ _ _ _ _ hf' hpp
  have e2 : (guestAlloc (memWrite (guestAlloc vm0 inBytes.length).1
      (guestAlloc vm0 inBytes.length).2 inBytes) 8).1.nextPtr
      = vm0.nextPtr + inBytes.length + 8 := rfl
  have e3 : (guestAlloc (memWrite (guestAlloc vm0 inBytes.length).1
      (guestAlloc vm0 inBytes.length).2 inBytes) 8).1.allocs
      = (vm0.nextPtr + inBytes.length, 8) :: (vm0.nextPtr, inBytes.length)
          :: vm0.allocs := rfl
  have e0 : (guestAlloc vm0 inBytes.length).2 = vm0.nextPtr := rfl
  have e1 : (guestAlloc (memWrite (guestAlloc vm0 inBytes.length).1
      (guestAlloc vm0 inBytes.length).2 inBytes) 8).2
      = vm0.nextPtr + inBytes.length := rfl
  rw [e2] at hDescr hOut hAllocs
  rw [e3] at hAllocs
  have hmod2 : ∀ x : Nat, x % 256 % 256 = x % 256 := fun x =>
    Nat.mod_mod_of_dvd x dvd_rfl
  simp only [runTile]
  rw [hFlen, if_neg hL, hDescr]
  simp only [le32Bytes, List.cons_append, List.nil_append, List.map_cons,
    List.map_nil, List.getD_cons_zero, List.getD_cons_succ, hmod2]
  rw [goDecode32_le32, goDecode32_le32]
  rw [toSigned32_of_lt (show vm0.nextPtr + inBytes.length + 8 < 2147483648 by omega)]
  rw [toSigned32_of_lt (show outBytes.length < 2147483648 by omega)]
  rw [if_neg (by
    push_neg
    exact ⟨Int.natCast_nonneg _, Int.natCast_nonneg _⟩)]
  simp only [Int.toNat_natCast]
  rw [hOut]
  simp only [hdec, if_true]
  refine ⟨trivial, ?_, ?_⟩
  · simp only [guestDealloc]
    rw [hAllocs, e1, e0]
    have ne1 : ¬((((vm0.nextPtr + inBytes.length + 8 : Nat), outBytes.length)
        == ((vm0.nextPtr : Nat), inBytes.length)) = true) := by
      simp only [beq_iff_eq, Prod.mk.injEq]
      omega
    have ne2 : ¬((((vm0.nextPtr + inBytes.length : Nat), (8 : Nat))
        == ((vm0.nextPtr : Nat), inBytes.length)) = true) := by
      simp only [beq_iff_eq, Prod.mk.injEq]
      omega
    rw [List.erase_cons_tail ne1, List.erase_cons_tail ne2,
      List.erase_cons_head, List.erase_cons_head, List.erase_cons_head]
  · rw [e1, e0]

/-! ## Claim C4: the dealloc sequence of a successful invocation -/

/-- **C4.**  Every successful zero-copy invocation issues exactly three
`dealloc` calls, in this exact order, after the filter call (the result copy
happens between the filter call and the first `dealloc`): first `inPtr`
with length `inputLen`, then `outPtr` with length `outLen`, then
`outParamsPtr` with length 8.  `inPtr` and `outParamsPtr` are the two host
allocations (`inPtr = ` the slot's bump pointer, `outParamsPtr = inPtr +
inputLen`); `outPtr`/`outLen` are the decoded descriptor fields. -/
theorem runTile_dealloc_order (decodeOk : List Nat → Bool)
    (f : List Nat → Option (List Nat)) (vm0 : VMState) (inBytes out : List Nat)
    (hok : (runTile decodeOk f vm0 inBytes).res = Except.ok out) :
    ∃ outPtr outLen,
      (runTile decodeOk f vm0 inBytes).trace =
        [GuestCall.alloc inBytes.length, GuestCall.alloc 8,
         GuestCall.filterCall vm0.nextPtr inBytes.length
           (vm0.nextPtr + inBytes.length),
         GuestCall.dealloc vm0.nextPtr inBytes.length,
         GuestCall.dealloc outPtr outLen,
         GuestCall.dealloc (vm0.nextPtr + inBytes.length) 8] := by
  rcases hfr : f (memRead (guestAlloc (memWrite (guestAlloc vm0 inBytes.length).1
      (guestAlloc vm0 inBytes.length).2 inBytes) 8).1
      (guestAlloc vm0 inBytes.length).2 inBytes.length) with _ | outB
  · exfalso
    have hmap : f (inBytes.map (· % 256)) = none := by
      rw [filter_input_read_back] at hfr
      exact hfr
    rw [runTile_res_of_filter_none decodeOk f vm0 inBytes hmap] at hok
    exact Except.noConfusion hok
  · simp only [runTile, guestFilter, hfr] at hok ⊢
    by_cases hL : outB.length = 0
    · rw [if_pos hL] at hok
      exact absurd hok (by simp)
    · rw [if_neg hL] at hok ⊢
      split at hok
      · exact absurd hok (by simp)
      · next hsign =>
        rw [if_neg hsign]
        split at hok
        · next hdec =>
          rw [if_pos hdec]
          exact ⟨_, _, rfl⟩
        · exact absurd hok (by simp)

/-! ## Claim C3: allocation lifetimes across one invocation -/

/-- **C3 (counterexample).**  The claim says every allocation is deallocated
on *every* exit path.  On the `resultLen == 0` path (`"zero length
output"`), `runTile` returns before any `dealloc`: the input buffer
`(1, 3)` and the descriptor `(4, 8)` stay live in the slot, so the
invocation leaks them. -/
theorem runTile_leak_cex :
    (runTile (fun _ => true) (fun _ => none) ⟨fun _ => 0, [], 1⟩ [1, 2, 3]).res
        = Except.error RunErr.guestFilterError ∧
      (runTile (fun _ => true) (fun _ => none) ⟨fun _ => 0, [], 1⟩ [1, 2, 3]).vm.allocs
        = [(4, 8), (1, 3)] :=
  ⟨rfl, rfl⟩

/-- **C3 (amended).**  In every *successful* zero-copy invocation all guest
allocations created during the invocation (input buffer, output buffer,
8-byte descriptor) are deallocated before the invocation ends, so the
slot's live-allocation list is exactly restored and repeated successful
invocations cause no net growth.  `hsane` is the wasm32 sanity bound (all
addresses handed out stay below `2^31`, as in a real ≤2 GiB guest memory);
on error exit paths the allocations leak (see the counterexample). -/
theorem runTile_success_no_leak (decodeOk : List Nat → Bool)
    (f : List Nat → Option (List Nat)) (vm0 : VMState) (inBytes out : List Nat)
    (hsane : ∀ bs o, f bs = some o →
      vm0.nextPtr + inBytes.length + 8 + o.length < 2147483648)
    (hok : (runTile decodeOk f vm0 inBytes).res = Except.ok out) :
    (runTile decodeOk f vm0 inBytes).vm.allocs = vm0.allocs := by
  rcases hfr : f (memRead (guestAlloc (memWrite (guestAlloc vm0 inBytes.length).1
      (guestAlloc vm0 inBytes.length).2 inBytes) 8).1
      (guestAlloc vm0 inBytes.length).2 inBytes.length) with _ | outB
  · exfalso
    have hmap : f (inBytes.map (· % 256)) = none := by
      rw [filter_input_read_back] at hfr
      exact hfr
    rw [runTile_res_of_filter_none decodeOk f vm0 inBytes hmap] at hok
    exact Except.noConfusion hok
  · have hmap : f (inBytes.map (· % 256)) = some outB := by
      rw [filter_input_read_back] at hfr
      exact hfr
    have hb := hsane _ _ hmap
    have hpp : (guestAlloc (memWrite (guestAlloc vm0 inBytes.length).1
        (guestAlloc vm0 inBytes.length).2 inBytes) 8).2 + 8
        ≤ (guestAlloc (memWrite (guestAlloc vm0 inBytes.length).1
          (guestAlloc vm0 inBytes.length).2 inBytes) 8).1.nextPtr := Nat.le_refl _
    obtain ⟨hFlen, hAllocs, hNext, hDescr, hOut⟩ :=
      guestFilter_some f _ _ _ _ _ hfr hpp
    have e2 : (guestAlloc (memWrite (guestAlloc vm0 inBytes.length).1
        (guestAlloc vm0 inBytes.length).2 inBytes) 8).1.nextPtr
        = vm0.nextPtr + inBytes.length + 8 := rfl
    rw [e2] at hDescr hOut
    have hmod2 : ∀ x : Nat, x % 256 % 256 = x % 256 := fun x =>
      Nat.mod_mod_of_dvd x dvd_rfl
    simp only [runTile] at hok
    rw [hFlen] at hok
    by_cases hL : outB.length = 0
    · rw [if_pos hL] at hok
      exact absurd hok (by simp)
    · rw [if_neg hL, hDescr] at hok
      simp only [le32Bytes, List.cons_append, List.nil_append, List.map_cons,
        List.map_nil, List.getD_cons_zero, List.getD_cons_succ, hmod2] at hok
      rw [goDecode32_le32, goDecode32_le32] at hok
      rw [toSigned32_of_lt
        (show vm0.nextPtr + inBytes.length + 8 < 2147483648 by omega)] at hok
      rw [toSigned32_of_lt (show outB.length < 2147483648 by omega)] at hok
      rw [if_neg (by
        push_neg
        exact ⟨Int.natCast_nonneg _, Int.natCast_nonneg _⟩)] at hok
      simp only [Int.toNat_natCast] at hok
      rw [hOut] at hok
      by_cases hdec : decodeOk (outB.map (· % 256)) = true
      · exact (runTile_ok_anatomy decodeOk f vm0 inBytes outB hmap hL hdec hb).2.1
      · rw [if_neg hdec] at hok
        exact absurd hok (by simp)

/-- Witness for C3 at a concrete successful invocation (slot bump pointer 1,
one-byte input, one-byte result). -/
theorem runTile_success_no_leak_witness :
    (runTile (fun _ => true) (fun _ => some [9]) ⟨fun _ => 0, [], 1⟩ [5]).vm.allocs
      = [] :=
  runTile_success_no_leak _ _ _ _ [9]
    (by
      intro bs o h
      cases h
      decide)
    rfl

/-- Witness for C4 at the same concrete successful invocation. -/
theorem runTile_dealloc_order_witness :
    (runTile (fun _ => true) (fun _ => some [9]) ⟨fun _ => 0, [], 1⟩ [5]).res
        = Except.ok [9] ∧
      ∃ outPtr outLen,
        (runTile (fun _ => true) (fun _ => some [9]) ⟨fun _ => 0, [], 1⟩ [5]).trace =
          [GuestCall.alloc 1, GuestCall.alloc 8, GuestCall.filterCall 1 1 2,
           GuestCall.dealloc 1 1, GuestCall.dealloc outPtr outLen,
           GuestCall.dealloc 2 8] :=
  ⟨rfl, runTile_dealloc_order _ _ _ _ [9] rfl⟩

/-! ## Claim C5: decoding the output descriptor -/

/-- **C5 (counterexample).**  The claim says the two descriptor fields are
decoded as little-endian *unsigned* 32-bit integers for every byte content,
including a set high bit.  The Go driver decodes through `int32`: the bytes
`[0, 0, 0, 0x80]` decode to `-2^31`, not to the unsigned value `2^31`. -/
theorem descriptor_decode_cex :
    goDecode32 0 0 0 128 ≠ ((leU32 0 0 0 128 : Nat) : Int) ∧
      goDecode32 0 0 0 128 = -2147483648 ∧ leU32 0 0 0 128 = 2147483648 := by
  refine ⟨?_, ?_, ?_⟩ <;> decide

/-- **C5 (amended).**  The host reads exactly 8 bytes at `outParamsPtr` and
decodes bytes 0-3 and 4-7 as little-endian 32-bit *signed* integers (Go
`int32`): the decoded value is the two's-complement reinterpretation of the
unsigned little-endian value; it agrees with the unsigned interpretation
exactly when the field's high byte is below 128, and is negative (making
the following guest-memory read fail) when the high bit is set. -/
theorem descriptor_decode_signed (b0 b1 b2 b3 : Nat) (h0 : b0 < 256)
    (h1 : b1 < 256) (h2 : b2 < 256) (h3 : b3 < 256) :
    goDecode32 b0 b1 b2 b3 = toSigned32 (leU32 b0 b1 b2 b3)
    ∧ (b3 < 128 → goDecode32 b0 b1 b2 b3 = ((leU32 b0 b1 b2 b3 : Nat) : Int))
    ∧ (128 ≤ b3 → goDecode32 b0 b1 b2 b3 < 0)
    ∧ ∀ (vm : VMState) (p : Nat), (memRead vm p 8).length = 8 := by
  have key : goDecode32 b0 b1 b2 b3 = toSigned32 (leU32 b0 b1 b2 b3) := by
    rw [goDecode32, bytes_lor_eq h0 h1 h2]
  have hlt : leU32 b0 b1 b2 b3 < 4294967296 := by
    unfold leU32
    omega
  refine ⟨key, ?_, ?_, ?_⟩
  · intro hb3
    rw [key, toSigned32_of_lt]
    unfold leU32
    omega
  · intro hb3
    rw [key]
    unfold toSigned32
    rw [Nat.mod_eq_of_lt hlt, if_neg (by unfold leU32; omega)]
    have : leU32 b0 b1 b2 b3 < 4294967296 := hlt
    omega
  · intro vm p
    rfl

/-- Witness for C5 (amended) at the concrete descriptor bytes
`[9, 0, 0, 0]`. -/
theorem descriptor_decode_signed_witness :
    (9 : Nat) < 256 ∧
      (goDecode32 9 0 0 0 = toSigned32 (leU32 9 0 0 0)
        ∧ ((0 : Nat) < 128 → goDecode32 9 0 0 0 = ((leU32 9 0 0 0 : Nat) : Int))
        ∧ (128 ≤ (0 : Nat) → goDecode32 9 0 0 0 < 0)
        ∧ ∀ (vm : VMState) (p : Nat), (memRead vm p 8).length = 8) :=
  ⟨by decide,
    descriptor_decode_signed 9 0 0 0 (by decide) (by decide) (by decide) (by decide)⟩

/-! ## Claim C6: a zero result length is tagged with the tile coordinates -/

/-- The collector aborts with the coordinates of the failing tile when every
other tile in the arrival order succeeded. -/
theorem resultsOf_collect_error (decodeOk : List Nat → Bool)
    (filterOf : Nat × Nat → List Nat → Option (List Nat))
    (slotOf : Nat × Nat → VMState) (tileBytes : Nat × Nat → List Nat) :
    ∀ (order : List (Nat × Nat)) (c0 : Nat × Nat) (e : RunErr),
      c0 ∈ order →
      (runTile decodeOk (filterOf c0) (slotOf c0) (tileBytes c0)).res
        = Except.error e →
      (∀ c ∈ order, c ≠ c0 →
        ((runTile decodeOk (filterOf c) (slotOf c) (tileBytes c)).res).isOk = true) →
      collectResults (resultsOf decodeOk filterOf slotOf tileBytes order)
        = Except.error (c0, e) := by
  intro order
  induction order with
  | nil =>
    intro c0 e hmem _ _
    cases hmem
  | cons c rest ih =>
    intro c0 e hmem herr hothers
    by_cases hc : c = c0
    · subst hc
      simp only [resultsOf, List.map_cons]
      rw [herr]
      rfl
    · have hcok := hothers c (List.mem_cons_self _ _) hc
      rcases hres : (runTile decodeOk (filterOf c) (slotOf c) (tileBytes c)).res
        with e' | v
      · rw [hres] at hcok
        exact absurd hcok (by simp [Except.isOk, Except.toBool])
      · have hmem' : c0 ∈ rest := by
          rcases List.mem_cons.mp hmem with h | h
          · exact absurd h.symm hc
          · exact h
        have hrest := ih c0 e hmem' herr
          fun q hq hqne => hothers q (List.mem_cons_of_mem _ hq) hqne
        simp only [resultsOf, List.map_cons] at hrest ⊢
        rw [hres]
        simp only [collectResults, hrest]
        rfl

/-- **C6.**  A tile whose guest filter entry point returns a zero result
length fails with the `GuestFilterError` ("zero length output"); the run's
collector aborts tagged with exactly that tile's grid coordinates
(`log.Fatalf("tile %d,%d error: %v", ...)`); and the failure is contained
to its own slot: replacing the failing tile's guest behavior changes no
other tile's invocation, so the other in-flight workers' results are
untouched. -/
theorem guest_zero_result_tagged (decodeOk : List Nat → Bool)
    (filterOf : Nat × Nat → List Nat → Option (List Nat))
    (slotOf : Nat × Nat → VMState) (tileBytes : Nat × Nat → List Nat)
    (order : List (Nat × Nat)) (c0 : Nat × Nat)
    (hfail : filterOf c0 ((tileBytes c0).map (· % 256)) = none)
    (hmem : c0 ∈ order)
    (hothers : ∀ c ∈ order, c ≠ c0 →
      ((runTile decodeOk (filterOf c) (slotOf c) (tileBytes c)).res).isOk = true) :
    (runTile decodeOk (filterOf c0) (slotOf c0) (tileBytes c0)).res
        = Except.error RunErr.guestFilterError
    ∧ processImageZC decodeOk filterOf slotOf tileBytes order
        = Except.error (c0, RunErr.guestFilterError)
    ∧ ∀ (g : List Nat → Option (List Nat)) (c : Nat × Nat), c ≠ c0 →
        runTile decodeOk (Function.update filterOf c0 g c) (slotOf c) (tileBytes c)
          = runTile decodeOk (filterOf c) (slotOf c) (tileBytes c) := by
  have h1 := runTile_res_of_filter_none decodeOk (filterOf c0) (slotOf c0)
    (tileBytes c0) hfail
  refine ⟨h1, ?_, ?_⟩
  · exact resultsOf_collect_error decodeOk filterOf slotOf tileBytes order c0 _
      hmem h1 hothers
  · intro g c hc
    rw [Function.update_noteq hc]

/-- Witness for C6: two tiles, the guest of tile `(0,0)` returns a zero
result length, the guest of tile `(1,0)` succeeds. -/
theorem guest_zero_result_tagged_witness :
    ((0 : Nat), (0 : Nat)) ∈ [((1 : Nat), (0 : Nat)), (0, 0)] ∧
      ((runTile (fun _ => true) (c6Filters (0, 0)) (c6Slot (0, 0))
          (c6Bytes (0, 0))).res = Except.error RunErr.guestFilterError
        ∧ processImageZC (fun _ => true) c6Filters c6Slot c6Bytes
            [(1, 0), (0, 0)]
          = Except.error ((0, 0), RunErr.guestFilterError)
        ∧ ∀ (g : List Nat → Option (List Nat)) (c : Nat × Nat), c ≠ (0, 0) →
            runTile (fun _ => true) (Function.update c6Filters (0, 0) g c)
                (c6Slot c) (c6Bytes c)
              = runTile (fun _ => true) (c6Filters c) (c6Slot c) (c6Bytes c)) :=
  ⟨by decide,
    guest_zero_result_tagged (fun _ => true) c6Filters c6Slot c6Bytes
      [(1, 0), (0, 0)] (0, 0) rfl (by decide) (by decide)⟩

/-! ## Claim C7: fail-fast -/

/-- The zero-copy collector never reaches the stitch phase when any result
in the arrival list failed. -/
theorem collect_error_of_any :
    ∀ (L : List ((Nat × Nat) × Except RunErr (List Nat))),
      (∃ r ∈ L, ∃ e, r.2 = Except.error e) →
      ∃ t, collectResults L = Except.error t := by
  intro L
  induction L with
  | nil =>
    rintro ⟨r, hr, -⟩
    cases hr
  | cons a rest ih =>
    rintro ⟨r, hr, e, he⟩
    rcases a with ⟨c, res⟩
    rcases res with e' | v
    · exact ⟨(c, e'), rfl⟩
    · rcases List.mem_cons.mp hr with h | h
      · rw [h] at he
        exact absurd he (by simp)
      · obtain ⟨t, ht⟩ := ih ⟨r, h, e, he⟩
        refine ⟨t, ?_⟩
        simp only [collectResults, ht]
        rfl

/-- **C7 (counterexample).**  The claim covers *every* exchange strategy.
In the streamed-pipe strategy a failed tile process is only logged: with a
1×1 image and a single tile whose `wasmedge` process exits with a failure
after writing decodable output bytes, the run still produces a final
image. -/
theorem pipe_failure_still_produces_image :
    (pipeProcFail (0, 0)).exitOk = false ∧
      (pipePipeline pipeCodec pipeProcFail (blank 1 1) 256).isSome = true :=
  ⟨rfl, rfl⟩

/-- **C7 (amended).**  In the zero-copy strategy, any single failed tile
invocation aborts the entire run (`log.Fatalf` at the collector): no final
image is produced.  In the streamed-pipe strategy a failed tile process is
only logged and the run continues, aborting later only if a leftover
output file fails to open or decode at stitch time (see the
counterexample). -/
theorem zeroCopy_fail_fast (decodeOk : List Nat → Bool)
    (filterOf : Nat × Nat → List Nat → Option (List Nat))
    (slotOf : Nat × Nat → VMState) (tileBytes : Nat × Nat → List Nat)
    (order : List (Nat × Nat)) (c : Nat × Nat) (e : RunErr)
    (hc : c ∈ order)
    (he : (runTile decodeOk (filterOf c) (slotOf c) (tileBytes c)).res
      = Except.error e) :
    ∃ t, processImageZC decodeOk filterOf slotOf tileBytes order
      = Except.error t := by
  apply collect_error_of_any
  refine ⟨(c, (runTile decodeOk (filterOf c) (slotOf c) (tileBytes c)).res),
    ?_, e, he⟩
  exact List.mem_map_of_mem _ hc

/-- Witness for C7 (amended): a single tile whose guest returns a zero
result length. -/
theorem zeroCopy_fail_fast_witness :
    ((0 : Nat), (0 : Nat)) ∈ [((0 : Nat), (0 : Nat))] ∧
      ∃ t, processImageZC (fun _ => true) (fun _ _ => none)
          (fun _ => ⟨fun _ => 0, [], 1⟩) (fun _ => [5]) [(0, 0)]
        = Except.error t :=
  ⟨by decide,
    zeroCopy_fail_fast (fun _ => true) (fun _ _ => none)
      (fun _ => ⟨fun _ => 0, [], 1⟩) (fun _ => [5]) [(0, 0)] (0, 0)
      RunErr.guestFilterError (by decide) rfl⟩

/-! ## Claim C9: no validation of the tile size -/

/-- **C9 (the code has no `InvalidConfig` path).**  With `TILE_SIZE = -256`
and a 512×512 image the Go grid arithmetic yields `cols = rows = 0`; the
program raises no error, splits into no tiles, and saves a fully blank
512×512 final image.  (With `TILE_SIZE = 0` the program panics on an
integer division by zero instead.)  The claimed `InvalidConfig` failure
exists nowhere in the sources. -/
theorem no_tile_size_validation :
    tileColsGo 512 (-256) = 0 ∧ tileRowsGo 512 (-256) = 0 ∧
      splitTilesGo c9Img (-256) = [] ∧
      runPipelineGo c9Img (-256) = blank 512 512 :=
  ⟨by decide, by decide, rfl, rfl⟩

/-! ## Claim C10: the pipe variant leaves output files and reports no error -/

/-- **C10.**  In the streamed-pipe variant, for every tile whose guest
process fails, `runWasmFilter` has already created (truncated) the tile's
output file before launching the process (`os.Create` precedes `cmd.Run()`
in the event order) and returns normally after logging: the caller receives
no error, and the output file is left holding whatever the failed process
wrote (possibly nothing). -/
theorem runWasmFilter_failure_no_error (proc : ProcRun) (fs : FileSys)
    (inPath outPath : String) (bs : List Nat)
    (hin : fs inPath = some bs) (hfail : proc.exitOk = false) :
    (runWasmFilter proc fs inPath outPath).1 outPath = some proc.output ∧
      (runWasmFilter proc fs inPath outPath).2.1 =
        [PipeEvent.openInput inPath, PipeEvent.createOutput outPath,
         PipeEvent.launch] ∧
      (runWasmFilter proc fs inPath outPath).2.2 = none := by
  simp only [runWasmFilter, hin]
  refine ⟨?_, by trivial, by trivial⟩
  simp [writeFS]

/-- Witness for C10 at a concrete file system and failing process. -/
theorem runWasmFilter_failure_no_error_witness :
    writeFS emptyFS "in.png" [1] "in.png" = some [1] ∧
      (⟨[], false⟩ : ProcRun).exitOk = false ∧
      ((runWasmFilter ⟨[], false⟩ (writeFS emptyFS "in.png" [1]) "in.png"
          "out.png").1 "out.png" = some ([] : List Nat) ∧
        (runWasmFilter ⟨[], false⟩ (writeFS emptyFS "in.png" [1]) "in.png"
          "out.png").2.1 =
          [PipeEvent.openInput "in.png", PipeEvent.createOutput "out.png",
           PipeEvent.launch] ∧
        (runWasmFilter ⟨[], false⟩ (writeFS emptyFS "in.png" [1]) "in.png"
          "out.png").2.2 = none) :=
  ⟨rfl, rfl,
    runWasmFilter_failure_no_error ⟨[], false⟩ (writeFS emptyFS "in.png" [1])
      "in.png" "out.png" [1] rfl rfl⟩

end WasmPipeline
